import Mathlib

/-!
Verification of `scripts/pull_outputs.py` (cloud-workflows).

The script walks a JSON document of workflow outputs and downloads every
referenced `gs://` object to a local path via `gsutil`.  We embed the
script shallowly: JSON values become an inductive type, the filesystem
becomes an association list from (normalized) paths to file contents, and
every observable side effect (directory creation, `gsutil cp` invocation,
log line) becomes an element of an event trace.  The external copy
primitive is modeled as succeeding: it materializes the remote bytes at
the destination; the script never inspects its exit status.
-/

namespace PullOutputs

/-- Splits a character list on the separator character `sep`; models
Python `str.split(sep)` for a one-character separator (so the empty
string yields one empty component). -/
def splitOnCharAux (sep : Char) : List Char → List Char → List String
  | [], acc => [String.mk acc.reverse]
  | c :: rest, acc =>
      if c = sep then String.mk acc.reverse :: splitOnCharAux sep rest []
      else splitOnCharAux sep rest (c :: acc)

/-- Models Python `s.split(sep)` for a one-character separator. -/
def splitOnChar (sep : Char) (s : String) : List String :=
  splitOnCharAux sep s.toList []

/-- Raw slash-separated components of a path string. -/
def splitSlash (s : String) : List String :=
  splitOnChar '/' s

/-- Components of `PurePosixPath(s)`: empty components and single-dot
components are dropped (pathlib normalization); double-dot components are
kept. -/
def posixComponents (s : String) : List String :=
  (splitSlash s).filter (fun c => c != "" && c != ".")

/-- Boolean test that `p` is a prefix of the character list `s`;
models Python `str.startswith` via `strStartsWith` below. -/
def charsStartWith : List Char → List Char → Bool
  | _, [] => true
  | [], _ :: _ => false
  | a :: as, b :: bs => a = b && charsStartWith as bs

/-- Models Python `s.startswith(p)`. -/
def strStartsWith (s p : String) : Bool :=
  charsStartWith s.toList p.toList

/-- Joins components with slashes; models `"/".join`. -/
def joinSlash : List String → String
  | [] => ""
  | [x] => x
  | x :: y :: rest => x ++ "/" ++ joinSlash (y :: rest)

/-- The root marker of a POSIX path as pathlib renders it: `//` is kept
when the string starts with exactly two slashes, `/` when absolute,
empty when relative. -/
def posixRoot (s : String) : String :=
  if strStartsWith s "//" && !(strStartsWith s "///") then "//"
  else if strStartsWith s "/" then "/"
  else ""

/-- Models `str(PurePosixPath(s))`: normalized rendering of the path
(drops empty and `.` components, keeps the root). -/
def posixPath (s : String) : String :=
  let comps := posixComponents s
  let root := posixRoot s
  if comps.isEmpty then (if root = "" then "." else root)
  else root ++ joinSlash comps

/-- Models `Path(s).name`: the final component of the normalized path,
or the empty string when there is none. -/
def pathName (s : String) : String :=
  (posixComponents s).getLastD ""

/-- Models `str(Path(s).parent)`: the normalized path with its final
component removed. -/
def pathParent (s : String) : String :=
  let comps := (posixComponents s).dropLast
  let root := posixRoot s
  if comps.isEmpty then (if root = "" then "." else root)
  else root ++ joinSlash comps

/-- One observable side effect of the script: a directory creation, an
invocation of the external copy primitive (`gsutil cp -n`), or a log
line at a given level. -/
inductive Event where
  | mkdirs (dir : String)
  | copy (src : String) (dest : String)
  | debug (msg : String)
  | info (msg : String)
  | warn (msg : String)
  | error (msg : String)
deriving DecidableEq

/-- True exactly on `copy` events (invocations of the copy primitive). -/
def Event.isCopy : Event → Bool
  | .copy _ _ => true
  | _ => false

/-- Extracts the (source, destination) pair of a `copy` event. -/
def Event.copyPair : Event → Option (String × String)
  | .copy s d => some (s, d)
  | _ => none

/-- The local filesystem: an association list from normalized paths to
file contents.  Directories are not tracked (the script only ever tests
`Path(dest).is_file()` and reads files back). -/
abbrev FS := List (String × String)

/-- Content of the file at path `p`, if present; the lookup key is
normalized with `posixPath` because POSIX resolves redundant slashes and
dot components to the same file. -/
def fsGet (fs : FS) (p : String) : Option String :=
  (fs.find? (fun kv => kv.1 == posixPath p)).map (fun kv => kv.2)

/-- Models `Path(p).is_file()`. -/
def isFile (fs : FS) (p : String) : Bool :=
  (fsGet fs p).isSome

/-- Creates or replaces the file at path `p` with contents `c`. -/
def fsSet (fs : FS) (p c : String) : FS :=
  (posixPath p, c) :: fs

/-- Models `download_from_gcs(src, dest)` from the script.  `dr` is the
process-wide `DRYRUN` flag; `rm` gives the bytes of each remote object
(the `gsutil cp -n` call is modeled as materializing those bytes at the
destination; the script does not inspect its exit status).  Returns the
updated filesystem and the emitted events, in program order:
`os.makedirs(Path(dest).parent, exist_ok=True)` always runs first, then
either the skip log (when `Path(dest).is_file()`), or the download log
followed, unless in dry-run mode, by the copy. -/
def download_from_gcs (dr : Bool) (rm : String → String) (fs : FS)
    (src dest : String) : FS × List Event :=
  let mk := Event.mkdirs (pathParent dest)
  if isFile fs dest then
    (fs, [mk, Event.info ("File already exists, skipping download " ++ src ++ " to " ++ dest)])
  else
    let dl := Event.info ("Downloading " ++ src ++ " to " ++ dest)
    if dr then (fs, [mk, dl])
    else (fsSet fs dest (rm src), [mk, dl, Event.copy src dest])

mutual
/-- A parsed JSON value as the script sees it: the Output Tree.  Lists
and mappings carry their own spine types so that all recursion below is
structural.  A mapping is an ordered association list, matching Python
dict insertion order. -/
inductive JValue where
  | jstr (s : String)
  | jnull
  | jint (n : Int)
  | jbool (b : Bool)
  | jlist (xs : JList)
  | jdict (kvs : JDict)
deriving DecidableEq

/-- Spine of a JSON array. -/
inductive JList where
  | nil
  | cons (hd : JValue) (tl : JList)
deriving DecidableEq

/-- Spine of a JSON object: ordered key-value pairs. -/
inductive JDict where
  | nil
  | cons (k : String) (v : JValue) (tl : JDict)
deriving DecidableEq
end

/-- Models the Python expression `subdir or ""` (both `None` and the
empty string are falsy). -/
def subdirOr (sd : Option String) : String :=
  match sd with
  | none => ""
  | some s => s

/-- The log message of the null-leaf branch: Python
`f"Skipping optional output that wasn\x27t defined{...}"`, which names
the subdir only when it is truthy. -/
def skipMsg (sd : Option String) : String :=
  "Skipping optional output that wasn\x27t defined" ++
    (if subdirOr sd = "" then "" else ": " ++ subdirOr sd)

mutual
/-- Models `download(path, value, subdir)` from the script.  `dr` is the
`DRYRUN` flag and `rm` the remote object contents.  Returns the updated
filesystem and the event trace.  Branches follow the source exactly:
lists recurse on each element with base `f"{Path(path)}/{subdir or ''}"`
and no subdir; dicts recurse on each value with base
`f"{path}/{subdir or ''}"` and the key as the new subdir; a string not
starting with `gs://` only logs a warning; a `gs://` string is handed to
`download_from_gcs` with destination `Path(f"{path}/{Path(value).name}")`
(the pending `subdir` is not used); null logs an info line; any other
scalar logs an error. -/
def download (dr : Bool) (rm : String → String) (fs : FS) (path : String) :
    JValue → Option String → FS × List Event
  | .jlist xs, sd => downloadL dr rm fs (posixPath path ++ "/" ++ subdirOr sd) xs
  | .jdict kvs, sd => downloadD dr rm fs (path ++ "/" ++ subdirOr sd) kvs
  | .jstr s, _ =>
      if strStartsWith s "gs://" then
        download_from_gcs dr rm fs s (posixPath (path ++ "/" ++ pathName s))
      else
        (fs, [Event.warn ("Likely not a File output. had a non-GCS path value of " ++ s)])
  | .jnull, sd => (fs, [Event.info (skipMsg sd)])
  | .jint n, _ =>
      (fs, [Event.error ("Don\x27t know how to download type <class \x27int\x27>. Full object: " ++ toString n)])
  | .jbool b, _ =>
      (fs, [Event.error ("Don\x27t know how to download type <class \x27bool\x27>. Full object: " ++ (if b then "True" else "False"))])

/-- The list branch of `download`: iterates `download(newPath, loc)` over
the elements, threading the filesystem and concatenating the traces. -/
def downloadL (dr : Bool) (rm : String → String) (fs : FS) (path : String) :
    JList → FS × List Event
  | .nil => (fs, [])
  | .cons x rest =>
      let r := download dr rm fs path x none
      let r2 := downloadL dr rm r.1 path rest
      (r2.1, r.2 ++ r2.2)

/-- The dict branch of `download`: iterates
`download(newPath, v, subdir=k)` over the pairs, threading the
filesystem and concatenating the traces. -/
def downloadD (dr : Bool) (rm : String → String) (fs : FS) (path : String) :
    JDict → FS × List Event
  | .nil => (fs, [])
  | .cons k v rest =>
      let r := download dr rm fs path v (some k)
      let r2 := downloadD dr rm r.1 path rest
      (r2.1, r.2 ++ r2.2)
end

/-- Models Python `k.split(".")[-1]` (the substring after the last dot). -/
def lastDotComponent (k : String) : String :=
  (splitOnChar '.' k).getLastD ""

/-- One step of `download_outputs`: for each `(k, v)` of the outputs
mapping, call `download(outputs_dir, v, subdir=k.split(".")[-1])`. -/
def downloadOutputsGo (dr : Bool) (rm : String → String) (fs : FS)
    (outputs_dir : String) : JDict → FS × List Event
  | .nil => (fs, [])
  | .cons k v rest =>
      let r := download dr rm fs outputs_dir v (some (lastDotComponent k))
      let r2 := downloadOutputsGo dr rm r.1 outputs_dir rest
      (r2.1, r.2 ++ r2.2)

/-- Looks a key up in a JSON object, first match wins (Python dicts hold
each key once, so this is `response[key]`). -/
def jdictGet (key : String) : JDict → Option JValue
  | .nil => none
  | .cons k v rest => if k = key then some v else jdictGet key rest

/-- Models `download_outputs(response, outputs_dir)`: iterates over
`response["outputs"].items()`.  Returns `none` when `response` has no
`"outputs"` mapping (the Python raises a `KeyError` or
`AttributeError` there). -/
def download_outputs (dr : Bool) (rm : String → String) (fs : FS)
    (response : JDict) (outputs_dir : String) : Option (FS × List Event) :=
  match jdictGet "outputs" response with
  | some (.jdict kvs) => some (downloadOutputsGo dr rm fs outputs_dir kvs)
  | _ => none

/-- Models `read_json(filename)`.  `parse` stands for `json.load` on the
file contents (an external library call; `none` models a parse failure),
`envTmpdir` for `os.environ.get("TMPDIR")`.  For a `gs://` path the file
is first materialized at `f"{Path(tmpdir)}/{Path(filename).name}"` via
`download_from_gcs`, then opened and parsed; otherwise the local file is
opened and parsed directly.  A `none` result also models the
`FileNotFoundError` of opening a missing file. -/
def read_json (parse : String → Option JValue) (envTmpdir : Option String)
    (dr : Bool) (rm : String → String) (fs : FS) (filename : String) :
    FS × List Event × Option JValue :=
  let dbg := Event.debug ("Reading JSON " ++ filename)
  if strStartsWith filename "gs://" then
    let tmpdir := match envTmpdir with | some t => t | none => "/tmp"
    let tmpfile := posixPath tmpdir ++ "/" ++ pathName filename
    let r := download_from_gcs dr rm fs filename tmpfile
    (r.1, dbg :: r.2, (fsGet r.1 tmpfile).bind parse)
  else
    (fs, [dbg], (fsGet fs filename).bind parse)

mutual
/-- Number of string leaves carrying the `gs://` prefix in a tree, i.e.
the number of `download_from_gcs` calls that a traversal of the tree
makes. -/
def gsLeafCount : JValue → Nat
  | .jstr s => if strStartsWith s "gs://" then 1 else 0
  | .jlist xs => gsLeafCountL xs
  | .jdict kvs => gsLeafCountD kvs
  | _ => 0

/-- `gsLeafCount` summed over a list spine. -/
def gsLeafCountL : JList → Nat
  | .nil => 0
  | .cons x rest => gsLeafCount x + gsLeafCountL rest

/-- `gsLeafCount` summed over a dict spine. -/
def gsLeafCountD : JDict → Nat
  | .nil => 0
  | .cons _ v rest => gsLeafCount v + gsLeafCountD rest
end

mutual
/-- Number of null leaves in a tree. -/
def nullCount : JValue → Nat
  | .jnull => 1
  | .jlist xs => nullCountL xs
  | .jdict kvs => nullCountD kvs
  | _ => 0

/-- `nullCount` summed over a list spine. -/
def nullCountL : JList → Nat
  | .nil => 0
  | .cons x rest => nullCount x + nullCountL rest

/-- `nullCount` summed over a dict spine. -/
def nullCountD : JDict → Nat
  | .nil => 0
  | .cons _ v rest => nullCount v + nullCountD rest
end

mutual
/-- True when the tree holds a string leaf anywhere.  The data model of
the script treats every string leaf as a remote-locator node. -/
def hasStringLeaf : JValue → Bool
  | .jstr _ => true
  | .jlist xs => hasStringLeafL xs
  | .jdict kvs => hasStringLeafD kvs
  | _ => false

/-- `hasStringLeaf` over a list spine. -/
def hasStringLeafL : JList → Bool
  | .nil => false
  | .cons x rest => hasStringLeaf x || hasStringLeafL rest

/-- `hasStringLeaf` over a dict spine. -/
def hasStringLeafD : JDict → Bool
  | .nil => false
  | .cons _ v rest => hasStringLeaf v || hasStringLeafD rest
end

mutual
/-- True when the tree holds a leaf of unrecognized scalar type (a
number or a boolean) anywhere. -/
def hasUnrecognizedScalar : JValue → Bool
  | .jint _ => true
  | .jbool _ => true
  | .jlist xs => hasUnrecognizedScalarL xs
  | .jdict kvs => hasUnrecognizedScalarD kvs
  | _ => false

/-- `hasUnrecognizedScalar` over a list spine. -/
def hasUnrecognizedScalarL : JList → Bool
  | .nil => false
  | .cons x rest => hasUnrecognizedScalar x || hasUnrecognizedScalarL rest

/-- `hasUnrecognizedScalar` over a dict spine. -/
def hasUnrecognizedScalarD : JDict → Bool
  | .nil => false
  | .cons _ v rest => hasUnrecognizedScalar v || hasUnrecognizedScalarD rest
end

mutual
/-- The (source, destination) arguments of the `download_from_gcs` calls
that `download path value subdir` makes, in order; a pure projection of
the traversal (the destination of a `gs://` string leaf is
`Path(f"{path}/{Path(value).name}")`, the pending subdir unused). -/
def fetchCalls (path : String) : JValue → Option String → List (String × String)
  | .jstr s, _ =>
      if strStartsWith s "gs://" then [(s, posixPath (path ++ "/" ++ pathName s))] else []
  | .jlist xs, sd => fetchCallsL (posixPath path ++ "/" ++ subdirOr sd) xs
  | .jdict kvs, sd => fetchCallsD (path ++ "/" ++ subdirOr sd) kvs
  | _, _ => []

/-- `fetchCalls` over a list spine. -/
def fetchCallsL (path : String) : JList → List (String × String)
  | .nil => []
  | .cons x rest => fetchCalls path x none ++ fetchCallsL path rest

/-- `fetchCalls` over a dict spine. -/
def fetchCallsD (path : String) : JDict → List (String × String)
  | .nil => []
  | .cons k v rest => fetchCalls path v (some k) ++ fetchCallsD path rest
end

/-- Number of `copy` events with destination `d` in a trace. -/
def copyCount (d : String) (evs : List Event) : Nat :=
  evs.countP (fun e =>
    match e with
    | .copy _ d2 => d2 == d
    | _ => false)

/-- True exactly on the informational skip line of the null-leaf branch
of `download`. -/
def Event.isSkipInfo : Event → Bool
  | .info m => strStartsWith m "Skipping optional output"
  | _ => false

/-- True exactly on the informational line of the already-present branch
of `download_from_gcs`. -/
def Event.isExistsInfo : Event → Bool
  | .info m => strStartsWith m "File already exists"
  | _ => false

/-- Concatenation of two JSON-array spines. -/
def jlistAppend : JList → JList → JList
  | .nil, bs => bs
  | .cons x rest, bs => .cons x (jlistAppend rest bs)

/-- The directory-shape example input of the spec:
`{"outputs": {"wf.task.bam": {"sample1": "gs://bucket/a.bam", "sample2": "gs://bucket/b.bam"}}}`. -/
def exampleBamResponse : JDict :=
  .cons "outputs"
    (.jdict (.cons "wf.task.bam"
      (.jdict (.cons "sample1" (.jstr "gs://bucket/a.bam")
        (.cons "sample2" (.jstr "gs://bucket/b.bam") .nil))) .nil)) .nil

/-- The list-flattening example input of the spec:
`{"outputs": {"wf.task.fastqs": ["gs://bucket/r1.fq", "gs://bucket/r2.fq"]}}`. -/
def exampleFastqsResponse : JDict :=
  .cons "outputs"
    (.jdict (.cons "wf.task.fastqs"
      (.jlist (.cons (.jstr "gs://bucket/r1.fq")
        (.cons (.jstr "gs://bucket/r2.fq") .nil))) .nil)) .nil

theorem isFile_fsSet_self (fs : FS) (p c : String) : isFile (fsSet fs p c) p = true := by
  simp [isFile, fsGet, fsSet, List.find?]

theorem isFile_fsSet_mono (fs : FS) (p c x : String) (h : isFile fs x = true) :
    isFile (fsSet fs p c) x = true := by
  unfold isFile fsGet fsSet
  cases hb : (posixPath p == posixPath x) with
  | true => simp [List.find?, hb]
  | false =>
      simp only [List.find?, hb]
      simpa [isFile, fsGet] using h

theorem fsGet_fsSet_self (fs : FS) (p c : String) : fsGet (fsSet fs p c) p = some c := by
  simp [fsGet, fsSet, List.find?]

theorem charsStartWith_append (xs ys ps : List Char) (h : charsStartWith xs ps = true) :
    charsStartWith (xs ++ ys) ps = true := by
  induction ps generalizing xs with
  | nil => simp [charsStartWith]
  | cons p ps ih =>
      cases xs with
      | nil => simp [charsStartWith] at h
      | cons a as =>
          simp only [List.cons_append, charsStartWith, Bool.and_eq_true] at h ⊢
          exact ⟨h.1, ih as h.2⟩

theorem strStartsWith_append (a b p : String) (h : strStartsWith a p = true) :
    strStartsWith (a ++ b) p = true := by
  unfold strStartsWith at h ⊢
  rw [show (a ++ b).toList = a.toList ++ b.toList from String.data_append a b]
  exact charsStartWith_append a.toList b.toList p.toList h

theorem download_from_gcs_skip (dr : Bool) (rm : String → String) (fs : FS)
    (src dest : String) (h : isFile fs dest = true) :
    download_from_gcs dr rm fs src dest =
      (fs, [Event.mkdirs (pathParent dest),
            Event.info ("File already exists, skipping download " ++ src ++ " to " ++ dest)]) := by
  simp [download_from_gcs, h]

theorem download_from_gcs_dry (rm : String → String) (fs : FS) (src dest : String) :
    (download_from_gcs true rm fs src dest).1 = fs ∧
    (download_from_gcs true rm fs src dest).2.filter Event.isCopy = [] := by
  unfold download_from_gcs
  cases h : isFile fs dest <;> simp [h, Event.isCopy]

theorem download_from_gcs_dry_filter (rm rm2 : String → String) (fs : FS) (src dest : String) :
    (download_from_gcs true rm fs src dest).2 =
      (download_from_gcs false rm2 fs src dest).2.filter (fun e => !e.isCopy) := by
  unfold download_from_gcs
  cases h : isFile fs dest <;> simp [h, Event.isCopy]

theorem download_from_gcs_mono (dr : Bool) (rm : String → String) (fs : FS)
    (src dest x : String) (h : isFile fs x = true) :
    isFile (download_from_gcs dr rm fs src dest).1 x = true := by
  unfold download_from_gcs
  cases hf : isFile fs dest
  · cases dr
    · simpa using isFile_fsSet_mono fs dest (rm src) x h
    · simpa using h
  · simpa using h

theorem download_from_gcs_dest_present (rm : String → String) (fs : FS)
    (src dest : String) :
    isFile (download_from_gcs false rm fs src dest).1 dest = true := by
  unfold download_from_gcs
  cases hf : isFile fs dest
  · simpa using isFile_fsSet_self fs dest (rm src)
  · simpa using hf

theorem charsStartWith_append_false (xs ys ps : List Char) (hlen : ps.length ≤ xs.length)
    (h : charsStartWith xs ps = false) : charsStartWith (xs ++ ys) ps = false := by
  induction ps generalizing xs with
  | nil => simp [charsStartWith] at h
  | cons p ps ih =>
      cases xs with
      | nil => simp at hlen
      | cons a as =>
          simp only [List.cons_append, charsStartWith, Bool.and_eq_false_iff] at h ⊢
          cases h with
          | inl h1 => exact Or.inl h1
          | inr h2 =>
              simp only [List.length_cons, Nat.add_le_add_iff_right] at hlen
              exact Or.inr (ih as hlen h2)

theorem strStartsWith_existsMsg (src dest : String) :
    strStartsWith ("File already exists, skipping download " ++ src ++ " to " ++ dest)
      "File already exists" = true := by
  have h1 : strStartsWith "File already exists, skipping download " "File already exists" = true := by
    decide
  exact strStartsWith_append _ dest _ (strStartsWith_append _ " to " _ (strStartsWith_append _ src _ h1))

theorem isExistsInfo_existsMsg (src dest : String) :
    Event.isExistsInfo
      (Event.info ("File already exists, skipping download " ++ src ++ " to " ++ dest)) = true := by
  simpa [Event.isExistsInfo] using strStartsWith_existsMsg src dest

theorem isSkipInfo_skipMsg (sd : Option String) :
    Event.isSkipInfo (Event.info (skipMsg sd)) = true := by
  have h1 : strStartsWith "Skipping optional output that wasn\x27t defined" "Skipping optional output" = true := by
    decide
  simpa [Event.isSkipInfo, skipMsg] using
    strStartsWith_append _ (if subdirOr sd = "" then "" else ": " ++ subdirOr sd) _ h1

theorem isExistsInfo_skipMsg (sd : Option String) :
    Event.isExistsInfo (Event.info (skipMsg sd)) = false := by
  have h1 : charsStartWith ("Skipping optional output that wasn\x27t defined").toList
      ("File already exists").toList = false := by decide
  have h2 : ("File already exists").toList.length ≤
      ("Skipping optional output that wasn\x27t defined").toList.length := by decide
  have h3 := charsStartWith_append_false _
    (if subdirOr sd = "" then "" else ": " ++ subdirOr sd).toList _ h2 h1
  simp only [Event.isExistsInfo, skipMsg]
  unfold strStartsWith
  have h4 : ("Skipping optional output that wasn\x27t defined" ++
      (if subdirOr sd = "" then "" else ": " ++ subdirOr sd)).toList =
      ("Skipping optional output that wasn\x27t defined").toList ++
      (if subdirOr sd = "" then "" else ": " ++ subdirOr sd).toList := String.data_append _ _
  rw [h4]
  exact h3

theorem download_jstr_gs (dr : Bool) (rm : String → String) (fs : FS) (path s : String)
    (sd : Option String) (h : strStartsWith s "gs://" = true) :
    download dr rm fs path (.jstr s) sd =
      download_from_gcs dr rm fs s (posixPath (path ++ "/" ++ pathName s)) := by
  simp [download, h]

mutual
theorem download_mono (dr : Bool) (rm : String → String) (fs : FS) (path : String)
    (v : JValue) (sd : Option String) (x : String) (h : isFile fs x = true) :
    isFile (download dr rm fs path v sd).1 x = true := by
  cases v with
  | jstr s =>
      cases hg : strStartsWith s "gs://" with
      | true =>
          rw [download_jstr_gs dr rm fs path s sd hg]
          exact download_from_gcs_mono dr rm fs s (posixPath (path ++ "/" ++ pathName s)) x h
      | false => simpa [download, hg] using h
  | jnull => simpa [download] using h
  | jint n => simpa [download] using h
  | jbool b => simpa [download] using h
  | jlist xs =>
      simp only [download]
      exact downloadL_mono dr rm fs (posixPath path ++ "/" ++ subdirOr sd) xs x h
  | jdict kvs =>
      simp only [download]
      exact downloadD_mono dr rm fs (path ++ "/" ++ subdirOr sd) kvs x h

theorem downloadL_mono (dr : Bool) (rm : String → String) (fs : FS) (path : String)
    (xs : JList) (x : String) (h : isFile fs x = true) :
    isFile (downloadL dr rm fs path xs).1 x = true := by
  cases xs with
  | nil => simpa [downloadL] using h
  | cons y rest =>
      simp only [downloadL]
      exact downloadL_mono dr rm (download dr rm fs path y none).1 path rest x
        (download_mono dr rm fs path y none x h)

theorem downloadD_mono (dr : Bool) (rm : String → String) (fs : FS) (path : String)
    (kvs : JDict) (x : String) (h : isFile fs x = true) :
    isFile (downloadD dr rm fs path kvs).1 x = true := by
  cases kvs with
  | nil => simpa [downloadD] using h
  | cons k v rest =>
      simp only [downloadD]
      exact downloadD_mono dr rm (download dr rm fs path v (some k)).1 path rest x
        (download_mono dr rm fs path v (some k) x h)
end

mutual
theorem download_dry (rm : String → String) (fs : FS) (path : String)
    (v : JValue) (sd : Option String) :
    (download true rm fs path v sd).1 = fs ∧
    (download true rm fs path v sd).2.filter Event.isCopy = [] := by
  cases v with
  | jstr s =>
      cases h : strStartsWith s "gs://" with
      | false => simp [download, h, Event.isCopy]
      | true =>
          rw [download_jstr_gs true rm fs path s sd h]
          exact download_from_gcs_dry rm fs s (posixPath (path ++ "/" ++ pathName s))
  | jnull => simp [download, Event.isCopy]
  | jint n => simp [download, Event.isCopy]
  | jbool b => simp [download, Event.isCopy]
  | jlist xs =>
      simpa [download] using downloadL_dry rm fs (posixPath path ++ "/" ++ subdirOr sd) xs
  | jdict kvs =>
      simpa [download] using downloadD_dry rm fs (path ++ "/" ++ subdirOr sd) kvs

theorem downloadL_dry (rm : String → String) (fs : FS) (path : String) (xs : JList) :
    (downloadL true rm fs path xs).1 = fs ∧
    (downloadL true rm fs path xs).2.filter Event.isCopy = [] := by
  cases xs with
  | nil => simp [downloadL]
  | cons x rest =>
      obtain ⟨ha, hb⟩ := download_dry rm fs path x none
      obtain ⟨hc, hd⟩ := downloadL_dry rm (download true rm fs path x none).1 path rest
      refine ⟨?_, ?_⟩
      · simp only [downloadL]; rw [hc, ha]
      · simp [downloadL, List.filter_append, hb, hd]

theorem downloadD_dry (rm : String → String) (fs : FS) (path : String) (kvs : JDict) :
    (downloadD true rm fs path kvs).1 = fs ∧
    (downloadD true rm fs path kvs).2.filter Event.isCopy = [] := by
  cases kvs with
  | nil => simp [downloadD]
  | cons k v rest =>
      obtain ⟨ha, hb⟩ := download_dry rm fs path v (some k)
      obtain ⟨hc, hd⟩ := downloadD_dry rm (download true rm fs path v (some k)).1 path rest
      refine ⟨?_, ?_⟩
      · simp only [downloadD]; rw [hc, ha]
      · simp [downloadD, List.filter_append, hb, hd]
end

theorem download_from_gcs_copyCount (dr : Bool) (rm : String → String) (fs : FS)
    (src dest d : String) :
    copyCount d (download_from_gcs dr rm fs src dest).2 ≤ 1 ∧
    (isFile fs d = true → copyCount d (download_from_gcs dr rm fs src dest).2 = 0) ∧
    (1 ≤ copyCount d (download_from_gcs dr rm fs src dest).2 →
      isFile (download_from_gcs dr rm fs src dest).1 d = true) := by
  unfold download_from_gcs
  cases hf : isFile fs dest with
  | true => simp [copyCount, List.countP_cons, List.countP_nil, hf]
  | false =>
      cases dr with
      | true => simp [copyCount, List.countP_cons, List.countP_nil]
      | false =>
          cases hbd : (dest == d) with
          | false => simp [copyCount, List.countP_cons, List.countP_nil, hbd]
          | true =>
              have hde : dest = d := eq_of_beq hbd
              subst hde
              refine ⟨?_, ?_, ?_⟩
              · simp [copyCount, List.countP_cons, List.countP_nil]
              · intro hc; rw [hc] at hf; cases hf
              · intro _
                simpa using isFile_fsSet_self fs dest (rm src)

mutual
theorem download_dests_present (rm : String → String) (fs : FS) (path : String)
    (v : JValue) (sd : Option String) :
    ∀ pr ∈ fetchCalls path v sd, isFile (download false rm fs path v sd).1 pr.2 = true := by
  intro pr hpr
  cases v with
  | jstr s =>
      cases hg : strStartsWith s "gs://" with
      | true =>
          rw [download_jstr_gs false rm fs path s sd hg]
          simp only [fetchCalls, hg, if_pos, List.mem_singleton] at hpr
          rw [hpr]
          exact download_from_gcs_dest_present rm fs s (posixPath (path ++ "/" ++ pathName s))
      | false => simp [fetchCalls, hg] at hpr
  | jnull => simp [fetchCalls] at hpr
  | jint n => simp [fetchCalls] at hpr
  | jbool b => simp [fetchCalls] at hpr
  | jlist xs =>
      simp only [fetchCalls] at hpr
      simp only [download]
      exact downloadL_dests_present rm fs (posixPath path ++ "/" ++ subdirOr sd) xs pr hpr
  | jdict kvs =>
      simp only [fetchCalls] at hpr
      simp only [download]
      exact downloadD_dests_present rm fs (path ++ "/" ++ subdirOr sd) kvs pr hpr

theorem downloadL_dests_present (rm : String → String) (fs : FS) (path : String)
    (xs : JList) :
    ∀ pr ∈ fetchCallsL path xs, isFile (downloadL false rm fs path xs).1 pr.2 = true := by
  intro pr hpr
  cases xs with
  | nil => simp [fetchCallsL] at hpr
  | cons y rest =>
      simp only [fetchCallsL, List.mem_append] at hpr
      simp only [downloadL]
      cases hpr with
      | inl h1 =>
          exact downloadL_mono false rm (download false rm fs path y none).1 path rest pr.2
            (download_dests_present rm fs path y none pr h1)
      | inr h2 =>
          exact downloadL_dests_present rm (download false rm fs path y none).1 path rest pr h2

theorem downloadD_dests_present (rm : String → String) (fs : FS) (path : String)
    (kvs : JDict) :
    ∀ pr ∈ fetchCallsD path kvs, isFile (downloadD false rm fs path kvs).1 pr.2 = true := by
  intro pr hpr
  cases kvs with
  | nil => simp [fetchCallsD] at hpr
  | cons k v rest =>
      simp only [fetchCallsD, List.mem_append] at hpr
      simp only [downloadD]
      cases hpr with
      | inl h1 =>
          exact downloadD_mono false rm (download false rm fs path v (some k)).1 path rest pr.2
            (download_dests_present rm fs path v (some k) pr h1)
      | inr h2 =>
          exact downloadD_dests_present rm (download false rm fs path v (some k)).1 path rest pr h2
end

mutual
theorem download_all_present (dr : Bool) (rm : String → String) (fs : FS) (path : String)
    (v : JValue) (sd : Option String)
    (h : ∀ pr ∈ fetchCalls path v sd, isFile fs pr.2 = true) :
    (download dr rm fs path v sd).1 = fs ∧
    (download dr rm fs path v sd).2.filter Event.isCopy = [] ∧
    (download dr rm fs path v sd).2.countP Event.isExistsInfo = gsLeafCount v := by
  cases v with
  | jstr s =>
      cases hg : strStartsWith s "gs://" with
      | true =>
          have hd : isFile fs (posixPath (path ++ "/" ++ pathName s)) = true :=
            h (s, posixPath (path ++ "/" ++ pathName s)) (by simp [fetchCalls, hg])
          rw [download_jstr_gs dr rm fs path s sd hg,
              download_from_gcs_skip dr rm fs s (posixPath (path ++ "/" ++ pathName s)) hd]
          refine ⟨rfl, ?_, ?_⟩
          · simp [Event.isCopy]
          · simp [List.countP_cons, List.countP_nil, strStartsWith_existsMsg,
              Event.isExistsInfo, gsLeafCount, hg]
      | false =>
          simp [download, hg, Event.isCopy, gsLeafCount, Event.isExistsInfo,
            List.countP_cons, List.countP_nil]
  | jnull =>
      simp [download, Event.isCopy, gsLeafCount, isExistsInfo_skipMsg,
        List.countP_cons, List.countP_nil]
  | jint n =>
      simp [download, Event.isCopy, gsLeafCount, Event.isExistsInfo,
        List.countP_cons, List.countP_nil]
  | jbool b =>
      simp [download, Event.isCopy, gsLeafCount, Event.isExistsInfo,
        List.countP_cons, List.countP_nil]
  | jlist xs =>
      simp only [fetchCalls] at h
      simp only [download, gsLeafCount]
      exact downloadL_all_present dr rm fs (posixPath path ++ "/" ++ subdirOr sd) xs h
  | jdict kvs =>
      simp only [fetchCalls] at h
      simp only [download, gsLeafCount]
      exact downloadD_all_present dr rm fs (path ++ "/" ++ subdirOr sd) kvs h

theorem downloadL_all_present (dr : Bool) (rm : String → String) (fs : FS) (path : String)
    (xs : JList) (h : ∀ pr ∈ fetchCallsL path xs, isFile fs pr.2 = true) :
    (downloadL dr rm fs path xs).1 = fs ∧
    (downloadL dr rm fs path xs).2.filter Event.isCopy = [] ∧
    (downloadL dr rm fs path xs).2.countP Event.isExistsInfo = gsLeafCountL xs := by
  cases xs with
  | nil => simp [downloadL, gsLeafCountL]
  | cons x rest =>
      have h1 : ∀ pr ∈ fetchCalls path x none, isFile fs pr.2 = true := by
        intro pr hpr
        exact h pr (by simp only [fetchCallsL, List.mem_append]; exact Or.inl hpr)
      have h2 : ∀ pr ∈ fetchCallsL path rest, isFile fs pr.2 = true := by
        intro pr hpr
        exact h pr (by simp only [fetchCallsL, List.mem_append]; exact Or.inr hpr)
      obtain ⟨ha, hb, hc⟩ := download_all_present dr rm fs path x none h1
      obtain ⟨hd, he, hf2⟩ :=
        downloadL_all_present dr rm (download dr rm fs path x none).1 path rest
          (by rw [ha]; exact h2)
      refine ⟨?_, ?_, ?_⟩
      · simp only [downloadL]; rw [hd, ha]
      · simp [downloadL, List.filter_append, hb, he]
      · simp [downloadL, List.countP_append, hc, hf2, gsLeafCountL]

theorem downloadD_all_present (dr : Bool) (rm : String → String) (fs : FS) (path : String)
    (kvs : JDict) (h : ∀ pr ∈ fetchCallsD path kvs, isFile fs pr.2 = true) :
    (downloadD dr rm fs path kvs).1 = fs ∧
    (downloadD dr rm fs path kvs).2.filter Event.isCopy = [] ∧
    (downloadD dr rm fs path kvs).2.countP Event.isExistsInfo = gsLeafCountD kvs := by
  cases kvs with
  | nil => simp [downloadD, gsLeafCountD]
  | cons k v rest =>
      have h1 : ∀ pr ∈ fetchCalls path v (some k), isFile fs pr.2 = true := by
        intro pr hpr
        exact h pr (by simp only [fetchCallsD, List.mem_append]; exact Or.inl hpr)
      have h2 : ∀ pr ∈ fetchCallsD path rest, isFile fs pr.2 = true := by
        intro pr hpr
        exact h pr (by simp only [fetchCallsD, List.mem_append]; exact Or.inr hpr)
      obtain ⟨ha, hb, hc⟩ := download_all_present dr rm fs path v (some k) h1
      obtain ⟨hd, he, hf2⟩ :=
        downloadD_all_present dr rm (download dr rm fs path v (some k)).1 path rest
          (by rw [ha]; exact h2)
      refine ⟨?_, ?_, ?_⟩
      · simp only [downloadD]; rw [hd, ha]
      · simp [downloadD, List.filter_append, hb, he]
      · simp [downloadD, List.countP_append, hc, hf2, gsLeafCountD]
end

theorem copyCount_append (d : String) (a b : List Event) :
    copyCount d (a ++ b) = copyCount d a + copyCount d b := by
  simp [copyCount, List.countP_append]

mutual
theorem download_copyCount (dr : Bool) (rm : String → String) (fs : FS) (path : String)
    (v : JValue) (sd : Option String) (d : String) :
    copyCount d (download dr rm fs path v sd).2 ≤ 1 ∧
    (isFile fs d = true → copyCount d (download dr rm fs path v sd).2 = 0) ∧
    (1 ≤ copyCount d (download dr rm fs path v sd).2 →
      isFile (download dr rm fs path v sd).1 d = true) := by
  cases v with
  | jstr s =>
      cases hg : strStartsWith s "gs://" with
      | true =>
          rw [download_jstr_gs dr rm fs path s sd hg]
          exact download_from_gcs_copyCount dr rm fs s (posixPath (path ++ "/" ++ pathName s)) d
      | false => simp [download, hg, copyCount, List.countP_cons, List.countP_nil]
  | jnull => simp [download, copyCount, List.countP_cons, List.countP_nil]
  | jint n => simp [download, copyCount, List.countP_cons, List.countP_nil]
  | jbool b => simp [download, copyCount, List.countP_cons, List.countP_nil]
  | jlist xs =>
      simp only [download]
      exact downloadL_copyCount dr rm fs (posixPath path ++ "/" ++ subdirOr sd) xs d
  | jdict kvs =>
      simp only [download]
      exact downloadD_copyCount dr rm fs (path ++ "/" ++ subdirOr sd) kvs d

theorem downloadL_copyCount (dr : Bool) (rm : String → String) (fs : FS) (path : String)
    (xs : JList) (d : String) :
    copyCount d (downloadL dr rm fs path xs).2 ≤ 1 ∧
    (isFile fs d = true → copyCount d (downloadL dr rm fs path xs).2 = 0) ∧
    (1 ≤ copyCount d (downloadL dr rm fs path xs).2 →
      isFile (downloadL dr rm fs path xs).1 d = true) := by
  cases xs with
  | nil => simp [downloadL, copyCount, List.countP_nil]
  | cons x rest =>
      obtain ⟨h1, h2, h3⟩ := download_copyCount dr rm fs path x none d
      obtain ⟨h4, h5, h6⟩ :=
        downloadL_copyCount dr rm (download dr rm fs path x none).1 path rest d
      have hcc : copyCount d (downloadL dr rm fs path (JList.cons x rest)).2 =
          copyCount d (download dr rm fs path x none).2 +
          copyCount d (downloadL dr rm (download dr rm fs path x none).1 path rest).2 := by
        simp [downloadL, copyCount_append]
      have hfs : (downloadL dr rm fs path (JList.cons x rest)).1 =
          (downloadL dr rm (download dr rm fs path x none).1 path rest).1 := by
        simp [downloadL]
      have hz : 1 ≤ copyCount d (download dr rm fs path x none).2 →
          copyCount d (downloadL dr rm (download dr rm fs path x none).1 path rest).2 = 0 :=
        fun hge => h5 (h3 hge)
      refine ⟨?_, ?_, ?_⟩
      · rw [hcc]; omega
      · intro hf
        rw [hcc, h2 hf, h5 (download_mono dr rm fs path x none d hf)]
      · intro hge
        rw [hcc] at hge
        rw [hfs]
        by_cases hc2 : 1 ≤ copyCount d (downloadL dr rm (download dr rm fs path x none).1 path rest).2
        · exact h6 hc2
        · have : 1 ≤ copyCount d (download dr rm fs path x none).2 := by omega
          exact downloadL_mono dr rm (download dr rm fs path x none).1 path rest d (h3 this)

theorem downloadD_copyCount (dr : Bool) (rm : String → String) (fs : FS) (path : String)
    (kvs : JDict) (d : String) :
    copyCount d (downloadD dr rm fs path kvs).2 ≤ 1 ∧
    (isFile fs d = true → copyCount d (downloadD dr rm fs path kvs).2 = 0) ∧
    (1 ≤ copyCount d (downloadD dr rm fs path kvs).2 →
      isFile (downloadD dr rm fs path kvs).1 d = true) := by
  cases kvs with
  | nil => simp [downloadD, copyCount, List.countP_nil]
  | cons k v rest =>
      obtain ⟨h1, h2, h3⟩ := download_copyCount dr rm fs path v (some k) d
      obtain ⟨h4, h5, h6⟩ :=
        downloadD_copyCount dr rm (download dr rm fs path v (some k)).1 path rest d
      have hcc : copyCount d (downloadD dr rm fs path (JDict.cons k v rest)).2 =
          copyCount d (download dr rm fs path v (some k)).2 +
          copyCount d (downloadD dr rm (download dr rm fs path v (some k)).1 path rest).2 := by
        simp [downloadD, copyCount_append]
      have hfs : (downloadD dr rm fs path (JDict.cons k v rest)).1 =
          (downloadD dr rm (download dr rm fs path v (some k)).1 path rest).1 := by
        simp [downloadD]
      have hz : 1 ≤ copyCount d (download dr rm fs path v (some k)).2 →
          copyCount d (downloadD dr rm (download dr rm fs path v (some k)).1 path rest).2 = 0 :=
        fun hge => h5 (h3 hge)
      refine ⟨?_, ?_, ?_⟩
      · rw [hcc]; omega
      · intro hf
        rw [hcc, h2 hf, h5 (download_mono dr rm fs path v (some k) d hf)]
      · intro hge
        rw [hcc] at hge
        rw [hfs]
        by_cases hc2 : 1 ≤ copyCount d (downloadD dr rm (download dr rm fs path v (some k)).1 path rest).2
        · exact h6 hc2
        · have : 1 ≤ copyCount d (download dr rm fs path v (some k)).2 := by omega
          exact downloadD_mono dr rm (download dr rm fs path v (some k)).1 path rest d (h3 this)
end

mutual
theorem download_benign (dr : Bool) (rm : String → String) (fs : FS) (path : String)
    (v : JValue) (sd : Option String) (h1 : hasStringLeaf v = false)
    (h2 : hasUnrecognizedScalar v = false) :
    (download dr rm fs path v sd).1 = fs ∧
    (∀ e ∈ (download dr rm fs path v sd).2, Event.isSkipInfo e = true) ∧
    (download dr rm fs path v sd).2.length = nullCount v := by
  cases v with
  | jstr s => simp [hasStringLeaf] at h1
  | jint n => simp [hasUnrecognizedScalar] at h2
  | jbool b => simp [hasUnrecognizedScalar] at h2
  | jnull => simp [download, nullCount, isSkipInfo_skipMsg]
  | jlist xs =>
      simp only [hasStringLeaf] at h1
      simp only [hasUnrecognizedScalar] at h2
      simp only [download, nullCount]
      exact downloadL_benign dr rm fs (posixPath path ++ "/" ++ subdirOr sd) xs h1 h2
  | jdict kvs =>
      simp only [hasStringLeaf] at h1
      simp only [hasUnrecognizedScalar] at h2
      simp only [download, nullCount]
      exact downloadD_benign dr rm fs (path ++ "/" ++ subdirOr sd) kvs h1 h2

theorem downloadL_benign (dr : Bool) (rm : String → String) (fs : FS) (path : String)
    (xs : JList) (h1 : hasStringLeafL xs = false) (h2 : hasUnrecognizedScalarL xs = false) :
    (downloadL dr rm fs path xs).1 = fs ∧
    (∀ e ∈ (downloadL dr rm fs path xs).2, Event.isSkipInfo e = true) ∧
    (downloadL dr rm fs path xs).2.length = nullCountL xs := by
  cases xs with
  | nil => simp [downloadL, nullCountL]
  | cons x rest =>
      simp only [hasStringLeafL, Bool.or_eq_false_iff] at h1
      simp only [hasUnrecognizedScalarL, Bool.or_eq_false_iff] at h2
      obtain ⟨ha, hb, hc⟩ := download_benign dr rm fs path x none h1.1 h2.1
      obtain ⟨hd, he, hf2⟩ :=
        downloadL_benign dr rm (download dr rm fs path x none).1 path rest h1.2 h2.2
      refine ⟨?_, ?_, ?_⟩
      · simp only [downloadL]; rw [hd, ha]
      · intro e he2
        simp only [downloadL, List.mem_append] at he2
        cases he2 with
        | inl hl => exact hb e hl
        | inr hr => exact he e hr
      · simp [downloadL, List.length_append, hc, hf2, nullCountL]

theorem downloadD_benign (dr : Bool) (rm : String → String) (fs : FS) (path : String)
    (kvs : JDict) (h1 : hasStringLeafD kvs = false) (h2 : hasUnrecognizedScalarD kvs = false) :
    (downloadD dr rm fs path kvs).1 = fs ∧
    (∀ e ∈ (downloadD dr rm fs path kvs).2, Event.isSkipInfo e = true) ∧
    (downloadD dr rm fs path kvs).2.length = nullCountD kvs := by
  cases kvs with
  | nil => simp [downloadD, nullCountD]
  | cons k v rest =>
      simp only [hasStringLeafD, Bool.or_eq_false_iff] at h1
      simp only [hasUnrecognizedScalarD, Bool.or_eq_false_iff] at h2
      obtain ⟨ha, hb, hc⟩ := download_benign dr rm fs path v (some k) h1.1 h2.1
      obtain ⟨hd, he, hf2⟩ :=
        downloadD_benign dr rm (download dr rm fs path v (some k)).1 path rest h1.2 h2.2
      refine ⟨?_, ?_, ?_⟩
      · simp only [downloadD]; rw [hd, ha]
      · intro e he2
        simp only [downloadD, List.mem_append] at he2
        cases he2 with
        | inl hl => exact hb e hl
        | inr hr => exact he e hr
      · simp [downloadD, List.length_append, hc, hf2, nullCountD]
end

theorem downloadL_append (dr : Bool) (rm : String → String) (fs : FS) (path : String)
    (as bs : JList) :
    downloadL dr rm fs path (jlistAppend as bs) =
      ((downloadL dr rm (downloadL dr rm fs path as).1 path bs).1,
       (downloadL dr rm fs path as).2 ++
         (downloadL dr rm (downloadL dr rm fs path as).1 path bs).2) := by
  cases as with
  | nil => simp [jlistAppend, downloadL]
  | cons x rest =>
      simp only [jlistAppend, downloadL]
      rw [downloadL_append dr rm (download dr rm fs path x none).1 path rest bs]
      simp [List.append_assoc]

theorem copyCount_zero_of_no_copies (d : String) (evs : List Event)
    (h : evs.filter Event.isCopy = []) : copyCount d evs = 0 := by
  induction evs with
  | nil => simp [copyCount]
  | cons e rest ih =>
      cases e <;> simp_all [copyCount, List.countP_cons, Event.isCopy, List.filter_cons]

/-- Claim C2 counterexample: for the non-`gs://` string leaf
`/local/file.txt`, `download` emits only a warning; it does not call the
Fetcher (no directory creation, no download log, no copy), contradicting
the claim that the same handling is still performed. -/
theorem claim_C2_counterexample :
    download false (fun _ => "remote-bytes") [] "./out" (.jstr "/local/file.txt") (some "bam") =
      ([], [Event.warn "Likely not a File output. had a non-GCS path value of /local/file.txt"]) ∧
    (download false (fun _ => "remote-bytes") [] "./out"
        (.jstr "/local/file.txt") (some "bam")).2.filterMap Event.copyPair = [] := by
  decide

/-- Claim C2 (amended): for every string leaf that does not carry the
`gs://` prefix, `download` logs a warning that it is likely not a File
output and performs no further handling: no Fetcher call, no filesystem
action; the traversal state is unchanged. -/
theorem claim_C2_amended (dr : Bool) (rm : String → String) (fs : FS) (path s : String)
    (sd : Option String) (h : strStartsWith s "gs://" = false) :
    download dr rm fs path (.jstr s) sd =
      (fs, [Event.warn ("Likely not a File output. had a non-GCS path value of " ++ s)]) := by
  simp [download, h]

/-- Witness for the amended claim C2 at a concrete non-remote string. -/
theorem claim_C2_amended_witness :
    download false (fun _ => "remote-bytes") [] "./out" (.jstr "relative/file.txt") none =
      ([], [Event.warn ("Likely not a File output. had a non-GCS path value of " ++
        "relative/file.txt")]) :=
  claim_C2_amended false (fun _ => "remote-bytes") [] "./out" "relative/file.txt" none (by decide)

/-- Claim C4: for every Output Tree with no string (remote-locator)
leaves and no unrecognized scalars, `download` leaves the filesystem
unchanged, every emitted event is an informational skipped-optional-
output line, and there is exactly one such line per null leaf. -/
theorem claim_C4 (dr : Bool) (rm : String → String) (fs : FS) (path : String)
    (v : JValue) (sd : Option String) (h1 : hasStringLeaf v = false)
    (h2 : hasUnrecognizedScalar v = false) :
    (download dr rm fs path v sd).1 = fs ∧
    (∀ e ∈ (download dr rm fs path v sd).2, Event.isSkipInfo e = true) ∧
    (download dr rm fs path v sd).2.length = nullCount v :=
  download_benign dr rm fs path v sd h1 h2

/-- Witness for claim C4 on a concrete tree of nested lists, dicts and
nulls. -/
theorem claim_C4_witness :
    (download false (fun _ => "remote-bytes") [] "./out"
        (.jdict (.cons "a" .jnull (.cons "b" (.jlist (.cons .jnull .nil)) .nil)))
        (some "x")).1 = [] ∧
    (∀ e ∈ (download false (fun _ => "remote-bytes") [] "./out"
        (.jdict (.cons "a" .jnull (.cons "b" (.jlist (.cons .jnull .nil)) .nil)))
        (some "x")).2, Event.isSkipInfo e = true) ∧
    (download false (fun _ => "remote-bytes") [] "./out"
        (.jdict (.cons "a" .jnull (.cons "b" (.jlist (.cons .jnull .nil)) .nil)))
        (some "x")).2.length =
      nullCount (.jdict (.cons "a" .jnull (.cons "b" (.jlist (.cons .jnull .nil)) .nil))) :=
  claim_C4 false (fun _ => "remote-bytes") [] "./out"
    (.jdict (.cons "a" .jnull (.cons "b" (.jlist (.cons .jnull .nil)) .nil)))
    (some "x") (by decide) (by decide)

/-- Claim C5: list nodes recurse on each element with the base path
joined with the pending subdir and no subdir for the recursive call, so
list elements get no per-element subdirectory; on the list-flattening
example both files are fetched to `out/fastqs/` (Path-normalized form of
`./out/fastqs/`). -/
theorem claim_C5 :
    ((download_outputs false (fun _ => "remote-bytes") [] exampleFastqsResponse "./out").map
        (fun r => r.2.filterMap Event.copyPair) =
      some [("gs://bucket/r1.fq", "out/fastqs/r1.fq"),
            ("gs://bucket/r2.fq", "out/fastqs/r2.fq")]) ∧
    (∀ (dr : Bool) (rm : String → String) (fs : FS) (path : String) (x : JValue)
        (xs : JList) (sd : Option String),
      download dr rm fs path (.jlist (.cons x xs)) sd =
        ((downloadL dr rm
            (download dr rm fs (posixPath path ++ "/" ++ subdirOr sd) x none).1
            (posixPath path ++ "/" ++ subdirOr sd) xs).1,
         (download dr rm fs (posixPath path ++ "/" ++ subdirOr sd) x none).2 ++
         (downloadL dr rm
            (download dr rm fs (posixPath path ++ "/" ++ subdirOr sd) x none).1
            (posixPath path ++ "/" ++ subdirOr sd) xs).2)) := by
  refine ⟨by decide, ?_⟩
  intro dr rm fs path x xs sd
  simp [download, downloadL]

/-- Claim C6: a null leaf produces exactly one informational log line
saying the optional output was skipped, naming the subdir when it is a
nonempty string, and no filesystem action and no warning or error. -/
theorem claim_C6 (dr : Bool) (rm : String → String) (fs : FS) (path : String)
    (sd : Option String) :
    download dr rm fs path .jnull sd = (fs, [Event.info (skipMsg sd)]) ∧
    Event.isSkipInfo (Event.info (skipMsg sd)) = true ∧
    skipMsg (some "bam") = "Skipping optional output that wasn\x27t defined: bam" ∧
    skipMsg none = "Skipping optional output that wasn\x27t defined" := by
  refine ⟨by simp [download], isSkipInfo_skipMsg sd, by decide, by decide⟩

/-- Claim C8: in dry-run mode the Fetcher emits exactly the events of a
normal-mode call minus the copy (directory creation and the download log
line are unchanged), and a whole dry-run traversal creates no file and
never invokes the copy primitive. -/
theorem claim_C8 (rm rm2 : String → String) (fs : FS) (src dest path : String)
    (v : JValue) (sd : Option String) :
    (download_from_gcs true rm fs src dest).2 =
      (download_from_gcs false rm2 fs src dest).2.filter (fun e => !e.isCopy) ∧
    (download true rm fs path v sd).1 = fs ∧
    (download true rm fs path v sd).2.filter Event.isCopy = [] :=
  ⟨download_from_gcs_dry_filter rm rm2 fs src dest,
   (download_dry rm fs path v sd).1,
   (download_dry rm fs path v sd).2⟩

/-- Claim C1 counterexample: on the directory-shape example input with
`outputs_dir = "./out"`, the two Fetcher calls copy to `out/bam/a.bam`
and `out/bam/b.bam` (the mapping keys `sample1`/`sample2` are not used
at string leaves), not to the claimed `./out/bam/sample1/a.bam` and
`./out/bam/sample2/b.bam` (whose Path-normalized forms are
`out/bam/sample1/a.bam` and `out/bam/sample2/b.bam`). -/
theorem claim_C1_counterexample :
    ((download_outputs false (fun _ => "remote-bytes") [] exampleBamResponse "./out").map
        (fun r => r.2.filterMap Event.copyPair) =
      some [("gs://bucket/a.bam", "out/bam/a.bam"), ("gs://bucket/b.bam", "out/bam/b.bam")]) ∧
    posixPath "./out/bam/sample1/a.bam" = "out/bam/sample1/a.bam" ∧
    posixPath "./out/bam/sample2/b.bam" = "out/bam/sample2/b.bam" ∧
    ("out/bam/a.bam" : String) ≠ "out/bam/sample1/a.bam" ∧
    ("out/bam/b.bam" : String) ≠ "out/bam/sample2/b.bam" := by
  decide

/-- Claim C1 (amended): on the directory-shape example the two Fetcher
calls fetch to `out/bam/a.bam` and `out/bam/b.bam`; in general a string
leaf reached at base path `p` is handed to the Fetcher with destination
`Path(p + "/" + basename)` — the pending subdir is applied only by
list and dict recursion, never at the string leaf itself. -/
theorem claim_C1_amended :
    ((download_outputs false (fun _ => "remote-bytes") [] exampleBamResponse "./out").map
        (fun r => r.2.filterMap Event.copyPair) =
      some [("gs://bucket/a.bam", "out/bam/a.bam"), ("gs://bucket/b.bam", "out/bam/b.bam")]) ∧
    (∀ (dr : Bool) (rm : String → String) (fs : FS) (path s : String) (sd : Option String),
      strStartsWith s "gs://" = true →
      download dr rm fs path (.jstr s) sd =
        download_from_gcs dr rm fs s (posixPath (path ++ "/" ++ pathName s))) :=
  ⟨by decide, download_jstr_gs⟩

/-- Witness for the amended claim C1: the general string-leaf equation
applied at a concrete leaf reached with pending subdir `sample1`. -/
theorem claim_C1_amended_witness :
    download false (fun _ => "remote-bytes") [] "./out/bam"
        (.jstr "gs://bucket/a.bam") (some "sample1") =
      download_from_gcs false (fun _ => "remote-bytes") [] "gs://bucket/a.bam"
        (posixPath ("./out/bam" ++ "/" ++ pathName "gs://bucket/a.bam")) :=
  claim_C1_amended.2 false (fun _ => "remote-bytes") [] "./out/bam" "gs://bucket/a.bam"
    (some "sample1") (by decide)

/-- Claim C3: running the traversal twice with the same tree and
destination directory invokes the copy primitive at most once per unique
destination path; the second run invokes no copy at all, leaves the
filesystem unchanged, and logs the informational already-exists skip
line once per `gs://` leaf (one per Fetcher call). -/
theorem claim_C3 (rm : String → String) (fs : FS) (path : String) (v : JValue)
    (sd : Option String) :
    (download false rm (download false rm fs path v sd).1 path v sd).2.filter
        Event.isCopy = [] ∧
    (download false rm (download false rm fs path v sd).1 path v sd).1 =
      (download false rm fs path v sd).1 ∧
    (download false rm (download false rm fs path v sd).1 path v sd).2.countP
        Event.isExistsInfo = gsLeafCount v ∧
    (∀ d, copyCount d ((download false rm fs path v sd).2 ++
        (download false rm (download false rm fs path v sd).1 path v sd).2) ≤ 1) := by
  obtain ⟨ha, hb, hc⟩ :=
    download_all_present false rm (download false rm fs path v sd).1 path v sd
      (download_dests_present rm fs path v sd)
  refine ⟨hb, ha, hc, ?_⟩
  intro d
  rw [copyCount_append]
  obtain ⟨g1, _, _⟩ := download_copyCount false rm fs path v sd d
  have h0 := copyCount_zero_of_no_copies d
    (download false rm (download false rm fs path v sd).1 path v sd).2 hb
  omega

/-- Claim C7: an unrecognized scalar leaf (number or boolean) produces
exactly one error log line describing the type and the value, leaves the
filesystem unchanged, raises nothing, and the traversal of the remaining
list siblings continues unchanged. -/
theorem claim_C7 (dr : Bool) (rm : String → String) (fs : FS) (path p2 : String)
    (sd : Option String) (n : Int) (b : Bool) (pre post : JList) :
    download dr rm fs path (.jint n) sd =
      (fs, [Event.error ("Don\x27t know how to download type <class \x27int\x27>. Full object: "
        ++ toString n)]) ∧
    download dr rm fs path (.jbool b) sd =
      (fs, [Event.error ("Don\x27t know how to download type <class \x27bool\x27>. Full object: "
        ++ (if b then "True" else "False"))]) ∧
    downloadL dr rm fs p2 (jlistAppend pre (.cons (.jint n) post)) =
      ((downloadL dr rm (downloadL dr rm fs p2 pre).1 p2 post).1,
       (downloadL dr rm fs p2 pre).2 ++
         Event.error ("Don\x27t know how to download type <class \x27int\x27>. Full object: "
           ++ toString n) ::
         (downloadL dr rm (downloadL dr rm fs p2 pre).1 p2 post).2) := by
  refine ⟨by simp [download], by simp [download], ?_⟩
  rw [downloadL_append dr rm fs p2 pre (.cons (.jint n) post)]
  simp [downloadL, download]

/-- Claim C9: for a `gs://` path, `read_json` downloads to
`<TMPDIR>/<basename>` (TMPDIR from the environment, defaulting to
`/tmp`), invokes the Fetcher (the copy to the temp file appears in the
trace when the temp file is absent), parses that local file, and the
parsed value equals what `read_json` returns on a local file holding the
same bytes. -/
theorem claim_C9 (parse : String → Option JValue) (envT : Option String)
    (rm : String → String) (fs fs2 : FS) (filename q tmpfile c : String)
    (h1 : strStartsWith filename "gs://" = true)
    (h2 : tmpfile = posixPath (match envT with | some t => t | none => "/tmp") ++ "/" ++
      pathName filename)
    (h3 : isFile fs tmpfile = false)
    (h4 : rm filename = c)
    (h5 : strStartsWith q "gs://" = false)
    (h6 : fsGet fs2 q = some c) :
    (read_json parse envT false rm fs filename).2.2 = parse c ∧
    Event.copy filename tmpfile ∈ (read_json parse envT false rm fs filename).2.1 ∧
    (read_json parse envT false rm fs2 q).2.2 = parse c ∧
    (read_json parse envT false rm fs filename).2.2 =
      (read_json parse envT false rm fs2 q).2.2 := by
  subst h2
  subst h4
  have hA : (read_json parse envT false rm fs filename).2.2 = parse (rm filename) := by
    simp [read_json, h1, download_from_gcs, h3, fsGet_fsSet_self]
  have hB : (read_json parse envT false rm fs2 q).2.2 = parse (rm filename) := by
    simp [read_json, h5, h6]
  refine ⟨hA, ?_, hB, hA.trans hB.symm⟩
  simp [read_json, h1, download_from_gcs, h3]

/-- Witness for claim C9 at a concrete remote manifest with TMPDIR
unset. -/
theorem claim_C9_witness :
    (read_json (fun s => some (.jstr s)) none false (fun _ => "CONTENT") []
        "gs://bucket/manifest.json").2.2 = some (JValue.jstr "CONTENT") ∧
    Event.copy "gs://bucket/manifest.json" "/tmp/manifest.json" ∈
      (read_json (fun s => some (.jstr s)) none false (fun _ => "CONTENT") []
        "gs://bucket/manifest.json").2.1 ∧
    (read_json (fun s => some (.jstr s)) none false (fun _ => "CONTENT")
        [("local/manifest.json", "CONTENT")] "local/manifest.json").2.2 =
      some (JValue.jstr "CONTENT") ∧
    (read_json (fun s => some (.jstr s)) none false (fun _ => "CONTENT") []
        "gs://bucket/manifest.json").2.2 =
      (read_json (fun s => some (.jstr s)) none false (fun _ => "CONTENT")
        [("local/manifest.json", "CONTENT")] "local/manifest.json").2.2 :=
  claim_C9 (fun s => some (.jstr s)) none (fun _ => "CONTENT") []
    [("local/manifest.json", "CONTENT")] "gs://bucket/manifest.json"
    "local/manifest.json" "/tmp/manifest.json" "CONTENT"
    (by decide) (by decide) (by decide) (by decide) (by decide) (by decide)

/-- Claim C10: when the temp file for a remote path already exists,
`read_json` does not invoke the copy primitive and returns the parse of
the pre-existing temp file contents, independent of the current remote
object contents (`rm` is arbitrary and absent from the conclusion). -/
theorem claim_C10 (parse : String → Option JValue) (envT : Option String)
    (rm : String → String) (fs : FS) (filename tmpfile c : String)
    (h1 : strStartsWith filename "gs://" = true)
    (h2 : tmpfile = posixPath (match envT with | some t => t | none => "/tmp") ++ "/" ++
      pathName filename)
    (h3 : fsGet fs tmpfile = some c) :
    (read_json parse envT false rm fs filename).2.2 = parse c ∧
    (read_json parse envT false rm fs filename).1 = fs ∧
    (read_json parse envT false rm fs filename).2.1.filter Event.isCopy = [] := by
  have hf : isFile fs tmpfile = true := by simp [isFile, h3]
  cases envT with
  | none =>
      simp only [] at h2
      subst h2
      simp [read_json, h1, download_from_gcs, hf, h3, Event.isCopy] at hf h3 ⊢
  | some t =>
      simp only [] at h2
      subst h2
      simp [read_json, h1, download_from_gcs, hf, h3, Event.isCopy] at hf h3 ⊢

/-- Witness for claim C10: a stale temp file with contents `OLD` is
returned even though the remote object now holds `NEW`. -/
theorem claim_C10_witness :
    (read_json (fun s => some (.jstr s)) none false (fun _ => "NEW")
        [("/tmp/manifest.json", "OLD")] "gs://bucket/manifest.json").2.2 =
      some (JValue.jstr "OLD") ∧
    (read_json (fun s => some (.jstr s)) none false (fun _ => "NEW")
        [("/tmp/manifest.json", "OLD")] "gs://bucket/manifest.json").1 =
      [("/tmp/manifest.json", "OLD")] ∧
    (read_json (fun s => some (.jstr s)) none false (fun _ => "NEW")
        [("/tmp/manifest.json", "OLD")] "gs://bucket/manifest.json").2.1.filter
        Event.isCopy = [] :=
  claim_C10 (fun s => some (.jstr s)) none (fun _ => "NEW")
    [("/tmp/manifest.json", "OLD")] "gs://bucket/manifest.json" "/tmp/manifest.json" "OLD"
    (by decide) (by decide) (by decide)

end PullOutputs
